import Mathlib

set_option autoImplicit false

/-!
A shallow embedding of the book-import command of the `library-backend`
repository (`library/management/commands/import_books.py` together with the
model declarations of `library/models.py`), and proofs about it.

The embedding models:
* a row of an input CSV file as a record of optional raw strings (an absent
  field models the `KeyError` raised by `row["..."]`),
* the catalog as the list of category names (in creation order) and the list
  of books (in creation order, keyed by `book_code`),
* the per-row logic, per-file loop and multi-file totals of `Command.handle`.
-/

namespace LibraryImport

/-- Drop leading whitespace characters. -/
def dropWs : List Char → List Char
  | [] => []
  | c :: cs => if c.isWhitespace then dropWs cs else c :: cs

/-- Python `str.strip()`: remove leading and trailing whitespace. -/
def strip (s : String) : String :=
  ⟨(dropWs (dropWs s.data).reverse).reverse⟩

/-- Value of a list of ASCII digit characters, most significant first. -/
def digitsVal (cs : List Char) : Nat :=
  cs.foldl (fun n c => 10 * n + (c.toNat - Char.toNat '0')) 0

/-- Python `int(s)` on a whitespace-stripped string: an optional sign
followed by one or more digits; `none` models `ValueError`. -/
def pyInt (s : String) : Option Int :=
  match s.data with
  | [] => none
  | '+' :: rest =>
    if rest ≠ [] ∧ rest.all Char.isDigit then some (digitsVal rest) else none
  | '-' :: rest =>
    if rest ≠ [] ∧ rest.all Char.isDigit then some (-(digitsVal rest : Int)) else none
  | cs =>
    if cs.all Char.isDigit then some (digitsVal cs) else none

/-- Line 76 of `import_books.py`:
`row["BOOK AUTHOR"].strip() if row["BOOK AUTHOR"] else None`
(the empty string is falsy in Python). -/
def authorsOf (raw : String) : Option String :=
  if raw == "" then none else some (strip raw)

/-- Lines 77 and 90-93 of `import_books.py`: strip the raw value, parse it
as an integer, and default to 1 on `ValueError`. -/
def copiesOf (raw : String) : Int :=
  (pyInt (strip raw)).getD 1

/-- One record of an input source.  Each expected column may be absent:
an absent field models `row["COLUMN"]` raising `KeyError`. -/
structure Row where
  category : Option String
  bookCode : Option String
  title : Option String
  author : Option String
  copies : Option String
deriving DecidableEq, Repr

/-- A `Book` model instance: `book_code` is the unique key; `authors` is
nullable; `number_of_copies` is the integer the command passes to storage. -/
structure Book where
  bookCode : String
  title : String
  authors : Option String
  categoryName : String
  numberOfCopies : Int
deriving DecidableEq, Repr

/-- `Book.__str__`: `f"{self.book_code} ({self.title})"`. -/
def bookStr (b : Book) : String := b.bookCode ++ " (" ++ b.title ++ ")"

/-- The catalog store: category names in creation order, books in creation
order. -/
structure Catalog where
  categories : List String
  books : List Book
deriving DecidableEq, Repr

def Catalog.empty : Catalog := ⟨[], []⟩

/-- `Category.objects.get_or_create(name=...)`: create the category on
first reference, otherwise leave the store unchanged. -/
def getOrCreateCategory (cats : List String) (name : String) : List String :=
  if name ∈ cats then cats else cats ++ [name]

/-- `Book.objects.get(book_code=...)`: `book_code` is declared unique, so
the first (only) entry with this code is returned; `none` models
`Book.DoesNotExist`. -/
def findBook (books : List Book) (code : String) : Option Book :=
  match books with
  | [] => none
  | b :: bs => if b.bookCode == code then some b else findBook bs code

/-- `Book.objects.update_or_create(book_code=..., defaults=...)`: replace
all four default fields of the existing book with this code, or create a
new book.  Returns the new store, the resulting object, and the `created`
flag. -/
def updateOrCreateBook (books : List Book) (code title : String)
    (authors : Option String) (categoryName : String) (copies : Int) :
    List Book × Book × Bool :=
  let nb : Book := ⟨code, title, authors, categoryName, copies⟩
  match books with
  | [] => ([nb], nb, true)
  | b :: bs =>
    if b.bookCode == code then (nb :: bs, nb, false)
    else
      let r := updateOrCreateBook bs code title authors categoryName copies
      (b :: r.1, r.2)

/-- The per-file counters and diagnostic lists of `Command.handle`
(lines 64-66 of `import_books.py`). -/
structure FileAcc where
  added : Nat
  updated : Nat
  skipped : Nat
  updatedBooks : List String
  skippedRows : List (String × String)
deriving DecidableEq, Repr

def FileAcc.zero : FileAcc := ⟨0, 0, 0, [], []⟩

/-- Process one row (lines 72-146 of `import_books.py`).  `none` models the
`KeyError` raised when a required column is absent, which aborts the file.
Otherwise the updated catalog and per-file counters are returned. -/
def processRow (dryRun : Bool) (cat : Catalog) (acc : FileAcc) (row : Row) :
    Option (Catalog × FileAcc) :=
  match row.category, row.bookCode, row.title, row.author, row.copies with
  | some rawCategory, some rawCode, some rawTitle, some rawAuthor, some rawCopies =>
    let categoryName := strip rawCategory
    let bookCode := strip rawCode
    let title := strip rawTitle
    let authors := authorsOf rawAuthor
    -- 1. Skip rows with no title
    if title == "" then
      some (cat, { acc with
        skipped := acc.skipped + 1,
        skippedRows := acc.skippedRows ++ [(categoryName, bookCode)] })
    else
      -- Ensure category exists
      let cats := getOrCreateCategory cat.categories categoryName
      -- 2. Default to 1 if missing/invalid
      let copies := copiesOf rawCopies
      if dryRun then
        match findBook cat.books bookCode with
        | some existing =>
          let changed :=
            (existing.title != title) || (existing.authors != authors) ||
            (existing.categoryName != categoryName) || (existing.numberOfCopies != copies)
          if changed then
            some ({ cat with categories := cats }, { acc with
              updated := acc.updated + 1,
              updatedBooks := acc.updatedBooks ++ [bookCode] })
          else
            some ({ cat with categories := cats }, { acc with skipped := acc.skipped + 1 })
        | none =>
          some ({ cat with categories := cats }, { acc with added := acc.added + 1 })
      else
        -- 3. Insert or update
        let r := updateOrCreateBook cat.books bookCode title authors categoryName copies
        if r.2.2 then
          some (⟨cats, r.1⟩, { acc with added := acc.added + 1 })
        else
          some (⟨cats, r.1⟩, { acc with
            updated := acc.updated + 1,
            updatedBooks := acc.updatedBooks ++ [bookStr r.2.1] })
  | _, _, _, _, _ => none

/-- Process the rows of one file in order.  A `KeyError` row stops the loop:
the catalog keeps the mutations of the earlier rows, and `none` signals that
the counters of the file were lost to the `except KeyError` handler. -/
def processRows (dryRun : Bool) : Catalog → FileAcc → List Row →
    Catalog × Option FileAcc
  | cat, acc, [] => (cat, some acc)
  | cat, acc, r :: rs =>
    match processRow dryRun cat acc r with
    | none => (cat, none)
    | some (cat', acc') => processRows dryRun cat' acc' rs

/-- An input file: either absent on disk (`FileNotFoundError`) or a list of
parsed rows. -/
inductive InputFile where
  | missing
  | present (rows : List Row)
deriving DecidableEq, Repr

/-- The run totals of `Command.handle` (lines 57-59). -/
structure RunTotals where
  added : Nat
  updated : Nat
  skipped : Nat
  updatedBooks : List String
  skippedRows : List (String × String)
deriving DecidableEq, Repr

def RunTotals.zero : RunTotals := ⟨0, 0, 0, [], []⟩

/-- Lines 169-174: add the counters of one completed file to the run totals. -/
def RunTotals.add (t : RunTotals) (a : FileAcc) : RunTotals :=
  ⟨t.added + a.added, t.updated + a.updated, t.skipped + a.skipped,
    t.updatedBooks ++ a.updatedBooks, t.skippedRows ++ a.skippedRows⟩

/-- The file loop of `Command.handle` (lines 61-174): each file is
processed from fresh per-file counters; a missing file or a missing-column
abort skips the accumulation step (`continue`) and moves to the next
file. -/
def processFiles (dryRun : Bool) : Catalog → RunTotals → List InputFile →
    Catalog × RunTotals
  | cat, tot, [] => (cat, tot)
  | cat, tot, InputFile.missing :: fs => processFiles dryRun cat tot fs
  | cat, tot, InputFile.present rows :: fs =>
    match processRows dryRun cat FileAcc.zero rows with
    | (cat', none) => processFiles dryRun cat' tot fs
    | (cat', some acc) => processFiles dryRun cat' (tot.add acc) fs

/-- The per-file results the run reports: the counters of each file that
completed without a fatal error, in processing order. -/
def runResults (dryRun : Bool) : Catalog → List InputFile → List FileAcc
  | _, [] => []
  | cat, InputFile.missing :: fs => runResults dryRun cat fs
  | cat, InputFile.present rows :: fs =>
    match processRows dryRun cat FileAcc.zero rows with
    | (cat', none) => runResults dryRun cat' fs
    | (cat', some acc) => acc :: runResults dryRun cat' fs

/-! ### Derived views of the row semantics, used by the proofs -/

/-- A row has all five required columns (no `KeyError`). -/
def rowOk (row : Row) : Bool :=
  row.category.isSome && row.bookCode.isSome && row.title.isSome &&
    row.author.isSome && row.copies.isSome

/-- The category name a row makes the engine reference (`none` when the
row is rejected before the `get_or_create` call). -/
def nameRow (row : Row) : Option String :=
  match row.category, row.title with
  | some rawCategory, some rawTitle =>
    if strip rawTitle == "" then none else some (strip rawCategory)
  | _, _ => none

/-- How one row evolves the category store, in either mode. -/
def catsRow (cats : List String) (row : Row) : List String :=
  match nameRow row with
  | some n => getOrCreateCategory cats n
  | none => cats

/-- How the rows of a file evolve the category store (stopping at the first
`KeyError` row, as the file loop does). -/
def catsRows : List String → List Row → List String
  | cats, [] => cats
  | cats, r :: rs => if rowOk r then catsRows (catsRow cats r) rs else cats

/-- How one row evolves the book store in APPLY mode. -/
def booksRow (books : List Book) (row : Row) : List Book :=
  match row.category, row.bookCode, row.title, row.author, row.copies with
  | some rawCategory, some rawCode, some rawTitle, some rawAuthor, some rawCopies =>
    if strip rawTitle == "" then books
    else (updateOrCreateBook books (strip rawCode) (strip rawTitle)
      (authorsOf rawAuthor) (strip rawCategory) (copiesOf rawCopies)).1
  | _, _, _, _, _ => books

/-- How the rows of a file evolve the book store in APPLY mode. -/
def booksRows : List Book → List Row → List Book
  | books, [] => books
  | books, r :: rs => if rowOk r then booksRows (booksRow books r) rs else books

/-- The category names that the processed rows of a file reference, in order. -/
def namesRows : List Row → List String
  | [] => []
  | r :: rs => if rowOk r then (nameRow r).toList ++ namesRows rs else []

/-- Category evolution over a whole input file. -/
def catsFile (cats : List String) : InputFile → List String
  | InputFile.missing => cats
  | InputFile.present rows => catsRows cats rows

/-- Category evolution over the file list of a run. -/
def catsFiles : List String → List InputFile → List String
  | cats, [] => cats
  | cats, f :: fs => catsFiles (catsFile cats f) fs

/-- APPLY-mode book evolution over a whole input file. -/
def booksFile (books : List Book) : InputFile → List Book
  | InputFile.missing => books
  | InputFile.present rows => booksRows books rows

/-- APPLY-mode book evolution over the file list of a run. -/
def booksFiles : List Book → List InputFile → List Book
  | books, [] => books
  | books, f :: fs => booksFiles (booksFile books f) fs

/-- The category names referenced across the file list of a run. -/
def namesFiles : List InputFile → List String
  | [] => []
  | InputFile.missing :: fs => namesFiles fs
  | InputFile.present rows :: fs => namesRows rows ++ namesFiles fs

/-! ### Lemmas about the catalog gateway operations -/

theorem updateOrCreateBook_obj (books : List Book) (code title : String)
    (authors : Option String) (categoryName : String) (copies : Int) :
    (updateOrCreateBook books code title authors categoryName copies).2.1 =
      ⟨code, title, authors, categoryName, copies⟩ := by
  induction books with
  | nil => rfl
  | cons b bs ih =>
    simp only [updateOrCreateBook]
    split
    · rfl
    · simpa using ih

theorem updateOrCreateBook_not_found (books : List Book) (code title : String)
    (authors : Option String) (categoryName : String) (copies : Int)
    (h : findBook books code = none) :
    updateOrCreateBook books code title authors categoryName copies =
      (books ++ [⟨code, title, authors, categoryName, copies⟩],
        ⟨code, title, authors, categoryName, copies⟩, true) := by
  induction books with
  | nil => rfl
  | cons b bs ih =>
    by_cases hb : b.bookCode == code
    · simp [findBook, hb] at h
    · simp only [findBook, hb, if_false] at h
      simp only [updateOrCreateBook, hb, if_false]
      simp [ih h]

theorem updateOrCreateBook_found (books : List Book) (code title : String)
    (authors : Option String) (categoryName : String) (copies : Int) (b : Book)
    (h : findBook books code = some b) :
    (updateOrCreateBook books code title authors categoryName copies).2.2 = false ∧
    (updateOrCreateBook books code title authors categoryName copies).1.length =
      books.length ∧
    findBook (updateOrCreateBook books code title authors categoryName copies).1 code =
      some ⟨code, title, authors, categoryName, copies⟩ := by
  induction books with
  | nil => simp [findBook] at h
  | cons x xs ih =>
    by_cases hx : x.bookCode == code
    · simp [updateOrCreateBook, hx, findBook]
    · simp only [findBook, hx, if_false] at h
      have h' := ih h
      simp only [updateOrCreateBook, hx, if_false]
      refine ⟨by simpa using h'.1, by simpa using h'.2.1, ?_⟩
      simpa [findBook, hx] using h'.2.2

theorem updateOrCreateBook_found_eq (books : List Book) (b : Book)
    (h : findBook books b.bookCode = some b) :
    updateOrCreateBook books b.bookCode b.title b.authors b.categoryName
      b.numberOfCopies = (books, b, false) := by
  induction books with
  | nil => simp [findBook] at h
  | cons x xs ih =>
    by_cases hx : x.bookCode == b.bookCode
    · simp only [findBook, hx, if_true, reduceIte] at h
      simp only [Option.some.injEq] at h
      subst h
      simp [updateOrCreateBook, hx]
    · simp only [findBook, hx, if_false] at h
      simp [updateOrCreateBook, hx, ih h]

/-! ### Projection lemmas for `processRow` -/

theorem processRow_isSome (d : Bool) (cat : Catalog) (acc : FileAcc) (row : Row) :
    (processRow d cat acc row).isSome = rowOk row := by
  obtain ⟨c, k, t, a, n⟩ := row
  cases c <;> cases k <;> cases t <;> cases a <;> cases n <;>
    simp [processRow, rowOk] <;> (repeat' split) <;> simp

theorem processRow_categories (d : Bool) (cat : Catalog) (acc : FileAcc) (row : Row)
    (p : Catalog × FileAcc) (hp : processRow d cat acc row = some p) :
    p.1.categories = catsRow cat.categories row := by
  obtain ⟨c, k, t, a, n⟩ := row
  rcases c with _ | c <;> rcases k with _ | k <;> rcases t with _ | t <;>
    rcases a with _ | a <;> rcases n with _ | n <;> simp [processRow] at hp
  by_cases ht : strip t = ""
  · simp only [ht, if_pos, reduceIte, Option.some.injEq] at hp
    subst hp
    simp [catsRow, nameRow, ht]
  · simp only [ht, if_neg, reduceIte] at hp
    repeat' split at hp
    all_goals (simp only [Option.some.injEq] at hp; subst hp; simp [catsRow, nameRow, ht])

theorem processRow_books_preview (cat : Catalog) (acc : FileAcc) (row : Row)
    (p : Catalog × FileAcc) (hp : processRow true cat acc row = some p) :
    p.1.books = cat.books := by
  obtain ⟨c, k, t, a, n⟩ := row
  rcases c with _ | c <;> rcases k with _ | k <;> rcases t with _ | t <;>
    rcases a with _ | a <;> rcases n with _ | n <;> simp [processRow] at hp
  by_cases ht : strip t = ""
  · simp only [ht, if_pos, reduceIte, Option.some.injEq] at hp
    subst hp
    rfl
  · simp only [ht, if_neg, reduceIte] at hp
    repeat' split at hp
    all_goals (simp only [Option.some.injEq] at hp; subst hp; rfl)

theorem processRow_books_apply (cat : Catalog) (acc : FileAcc) (row : Row)
    (p : Catalog × FileAcc) (hp : processRow false cat acc row = some p) :
    p.1.books = booksRow cat.books row := by
  obtain ⟨c, k, t, a, n⟩ := row
  rcases c with _ | c <;> rcases k with _ | k <;> rcases t with _ | t <;>
    rcases a with _ | a <;> rcases n with _ | n <;> simp [processRow] at hp
  by_cases ht : strip t = ""
  · simp only [ht, if_pos, reduceIte, Option.some.injEq] at hp
    subst hp
    simp [booksRow, ht]
  · simp only [ht, if_neg, reduceIte] at hp
    repeat' split at hp
    all_goals (simp only [Option.some.injEq] at hp; subst hp; simp [booksRow, ht])

/-! ### Projection lemmas for `processRows` and `processFiles` -/

theorem processRow_none_iff (d : Bool) (cat : Catalog) (acc : FileAcc) (row : Row) :
    processRow d cat acc row = none ↔ rowOk row = false := by
  have h := processRow_isSome d cat acc row
  constructor
  · intro hn
    rw [hn] at h
    simpa using h.symm
  · intro hr
    rw [hr] at h
    simpa using h

theorem processRows_categories (d : Bool) (cat : Catalog) (acc : FileAcc)
    (rows : List Row) :
    (processRows d cat acc rows).1.categories = catsRows cat.categories rows := by
  induction rows generalizing cat acc with
  | nil => rfl
  | cons r rs ih =>
    simp only [processRows, catsRows]
    cases hp : processRow d cat acc r with
    | none =>
      rw [(processRow_none_iff d cat acc r).mp hp]
      simp
    | some p =>
      have hok : rowOk r = true := by
        have h := processRow_isSome d cat acc r
        rw [hp] at h
        simpa using h.symm
      obtain ⟨cat', acc'⟩ := p
      simp only [hok, if_true]
      rw [ih]
      rw [processRow_categories d cat acc r _ hp]

theorem processRows_books_preview (cat : Catalog) (acc : FileAcc) (rows : List Row) :
    (processRows true cat acc rows).1.books = cat.books := by
  induction rows generalizing cat acc with
  | nil => rfl
  | cons r rs ih =>
    simp only [processRows]
    cases hp : processRow true cat acc r with
    | none => rfl
    | some p =>
      obtain ⟨cat', acc'⟩ := p
      rw [ih]
      exact processRow_books_preview cat acc r _ hp

theorem processRows_books_apply (cat : Catalog) (acc : FileAcc) (rows : List Row) :
    (processRows false cat acc rows).1.books = booksRows cat.books rows := by
  induction rows generalizing cat acc with
  | nil => rfl
  | cons r rs ih =>
    simp only [processRows, booksRows]
    cases hp : processRow false cat acc r with
    | none =>
      rw [(processRow_none_iff false cat acc r).mp hp]
      simp
    | some p =>
      have hok : rowOk r = true := by
        have h := processRow_isSome false cat acc r
        rw [hp] at h
        simpa using h.symm
      obtain ⟨cat', acc'⟩ := p
      simp only [hok, if_true]
      rw [ih]
      rw [processRow_books_apply cat acc r _ hp]

theorem processRows_isSome (d : Bool) (cat : Catalog) (acc : FileAcc)
    (rows : List Row) (h : ∀ r ∈ rows, rowOk r = true) :
    (processRows d cat acc rows).2.isSome = true := by
  induction rows generalizing cat acc with
  | nil => rfl
  | cons r rs ih =>
    simp only [processRows]
    cases hp : processRow d cat acc r with
    | none =>
      have := (processRow_none_iff d cat acc r).mp hp
      rw [h r (by simp)] at this
      cases this
    | some p =>
      obtain ⟨cat', acc'⟩ := p
      exact ih cat' acc' (fun x hx => h x (by simp [hx]))

theorem processFiles_categories (d : Bool) (cat : Catalog) (tot : RunTotals)
    (fs : List InputFile) :
    (processFiles d cat tot fs).1.categories = catsFiles cat.categories fs := by
  induction fs generalizing cat tot with
  | nil => rfl
  | cons f fs ih =>
    cases f with
    | missing => exact ih cat tot
    | present rows =>
      simp only [processFiles, catsFiles, catsFile]
      cases hr : processRows d cat FileAcc.zero rows with
      | mk cat' oacc =>
        have hcats : cat'.categories = catsRows cat.categories rows := by
          have h := processRows_categories d cat FileAcc.zero rows
          rw [hr] at h
          exact h
        cases oacc with
        | none => rw [ih cat' tot, hcats]
        | some acc => rw [ih cat' (tot.add acc), hcats]

theorem processFiles_books_preview (cat : Catalog) (tot : RunTotals)
    (fs : List InputFile) :
    (processFiles true cat tot fs).1.books = cat.books := by
  induction fs generalizing cat tot with
  | nil => rfl
  | cons f fs ih =>
    cases f with
    | missing => exact ih cat tot
    | present rows =>
      simp only [processFiles]
      cases hr : processRows true cat FileAcc.zero rows with
      | mk cat' oacc =>
        have hbooks : cat'.books = cat.books := by
          have h := processRows_books_preview cat FileAcc.zero rows
          rw [hr] at h
          exact h
        cases oacc with
        | none => rw [ih cat' tot, hbooks]
        | some acc => rw [ih cat' (tot.add acc), hbooks]

theorem processFiles_books_apply (cat : Catalog) (tot : RunTotals)
    (fs : List InputFile) :
    (processFiles false cat tot fs).1.books = booksFiles cat.books fs := by
  induction fs generalizing cat tot with
  | nil => rfl
  | cons f fs ih =>
    cases f with
    | missing => exact ih cat tot
    | present rows =>
      simp only [processFiles, booksFiles, booksFile]
      cases hr : processRows false cat FileAcc.zero rows with
      | mk cat' oacc =>
        have hbooks : cat'.books = booksRows cat.books rows := by
          have h := processRows_books_apply cat FileAcc.zero rows
          rw [hr] at h
          exact h
        cases oacc with
        | none => rw [ih cat' tot, hbooks]
        | some acc => rw [ih cat' (tot.add acc), hbooks]

/-! ### Monotonicity and idempotence of the category evolution -/

theorem getOrCreateCategory_eq_of_mem (cats : List String) (name : String)
    (h : name ∈ cats) : getOrCreateCategory cats name = cats := by
  simp [getOrCreateCategory, h]

theorem mem_getOrCreateCategory (cats : List String) (name x : String)
    (h : x ∈ cats) : x ∈ getOrCreateCategory cats name := by
  unfold getOrCreateCategory
  split
  · exact h
  · simp [h]

theorem self_mem_getOrCreateCategory (cats : List String) (name : String) :
    name ∈ getOrCreateCategory cats name := by
  unfold getOrCreateCategory
  split
  · assumption
  · simp

theorem mem_catsRow (cats : List String) (r : Row) (x : String) (h : x ∈ cats) :
    x ∈ catsRow cats r := by
  unfold catsRow
  cases nameRow r with
  | none => exact h
  | some n => exact mem_getOrCreateCategory cats n x h

theorem mem_catsRows (cats : List String) (rows : List Row) (x : String)
    (h : x ∈ cats) : x ∈ catsRows cats rows := by
  induction rows generalizing cats with
  | nil => exact h
  | cons r rs ih =>
    unfold catsRows
    split
    · exact ih _ (mem_catsRow cats r x h)
    · exact h

theorem mem_catsRows_of_names (cats : List String) (rows : List Row) (x : String)
    (h : x ∈ namesRows rows) : x ∈ catsRows cats rows := by
  induction rows generalizing cats with
  | nil => cases h
  | cons r rs ih =>
    unfold namesRows at h
    unfold catsRows
    by_cases hok : rowOk r = true
    · simp only [hok, if_true] at h ⊢
      rcases List.mem_append.mp h with h1 | h2
      · cases hn : nameRow r with
        | none => rw [hn] at h1; cases h1
        | some n =>
          rw [hn] at h1
          simp only [Option.toList, List.mem_singleton] at h1
          subst h1
          refine mem_catsRows _ rs x ?_
          unfold catsRow
          rw [hn]
          exact self_mem_getOrCreateCategory cats x
      · exact ih _ h2
    · simp only [hok, if_false] at h
      cases h

theorem catsRows_fixed (rows : List Row) (D : List String)
    (h : ∀ x ∈ namesRows rows, x ∈ D) : catsRows D rows = D := by
  induction rows with
  | nil => rfl
  | cons r rs ih =>
    unfold catsRows
    by_cases hok : rowOk r = true
    · simp only [hok, if_true]
      have hrow : catsRow D r = D := by
        unfold catsRow
        cases hn : nameRow r with
        | none => rfl
        | some n =>
          refine getOrCreateCategory_eq_of_mem D n (h n ?_)
          unfold namesRows
          simp [hok, hn]
      rw [hrow]
      refine ih (fun x hx => h x ?_)
      unfold namesRows
      simp [hok, hx]
    · simp [hok]

theorem mem_catsFile (cats : List String) (f : InputFile) (x : String)
    (h : x ∈ cats) : x ∈ catsFile cats f := by
  cases f with
  | missing => exact h
  | present rows => exact mem_catsRows cats rows x h

theorem mem_catsFiles (cats : List String) (fs : List InputFile) (x : String)
    (h : x ∈ cats) : x ∈ catsFiles cats fs := by
  induction fs generalizing cats with
  | nil => exact h
  | cons f fs ih => exact ih _ (mem_catsFile cats f x h)

theorem mem_catsFiles_of_names (cats : List String) (fs : List InputFile)
    (x : String) (h : x ∈ namesFiles fs) : x ∈ catsFiles cats fs := by
  induction fs generalizing cats with
  | nil => cases h
  | cons f fs ih =>
    cases f with
    | missing => exact ih cats h
    | present rows =>
      unfold namesFiles at h
      rcases List.mem_append.mp h with h1 | h2
      · exact mem_catsFiles _ fs x (mem_catsRows_of_names cats rows x h1)
      · exact ih _ h2

theorem catsFiles_fixed (fs : List InputFile) (D : List String)
    (h : ∀ x ∈ namesFiles fs, x ∈ D) : catsFiles D fs = D := by
  induction fs with
  | nil => rfl
  | cons f fs ih =>
    cases f with
    | missing => exact ih (by intro x hx; exact h x hx)
    | present rows =>
      show catsFiles (catsRows D rows) fs = D
      have hrows : catsRows D rows = D := by
        refine catsRows_fixed rows D (fun x hx => h x ?_)
        unfold namesFiles
        simp [hx]
      rw [hrows]
      refine ih (fun x hx => h x ?_)
      unfold namesFiles
      simp [hx]

theorem catsFiles_idem (cats : List String) (fs : List InputFile) :
    catsFiles (catsFiles cats fs) fs = catsFiles cats fs :=
  catsFiles_fixed fs (catsFiles cats fs)
    (fun x hx => mem_catsFiles_of_names cats fs x hx)

/-! ### The run accumulator as a fold over per-file results -/

theorem processFiles_snd (d : Bool) (cat : Catalog) (tot : RunTotals)
    (fs : List InputFile) :
    (processFiles d cat tot fs).2 = (runResults d cat fs).foldl RunTotals.add tot := by
  induction fs generalizing cat tot with
  | nil => rfl
  | cons f fs ih =>
    cases f with
    | missing => exact ih cat tot
    | present rows =>
      simp only [processFiles, runResults]
      cases hr : processRows d cat FileAcc.zero rows with
      | mk cat' oacc =>
        cases oacc with
        | none => exact ih cat' tot
        | some acc => simpa using ih cat' (tot.add acc)

theorem foldl_add_added (l : List FileAcc) (tot : RunTotals) :
    (l.foldl RunTotals.add tot).added = tot.added + (l.map FileAcc.added).sum := by
  induction l generalizing tot with
  | nil => simp
  | cons a l ih => simp [ih, RunTotals.add, Nat.add_assoc]

theorem foldl_add_updated (l : List FileAcc) (tot : RunTotals) :
    (l.foldl RunTotals.add tot).updated = tot.updated + (l.map FileAcc.updated).sum := by
  induction l generalizing tot with
  | nil => simp
  | cons a l ih => simp [ih, RunTotals.add, Nat.add_assoc]

theorem foldl_add_skipped (l : List FileAcc) (tot : RunTotals) :
    (l.foldl RunTotals.add tot).skipped = tot.skipped + (l.map FileAcc.skipped).sum := by
  induction l generalizing tot with
  | nil => simp
  | cons a l ih => simp [ih, RunTotals.add, Nat.add_assoc]

theorem foldl_add_updatedBooks (l : List FileAcc) (tot : RunTotals) :
    (l.foldl RunTotals.add tot).updatedBooks =
      tot.updatedBooks ++ (l.map FileAcc.updatedBooks).join := by
  induction l generalizing tot with
  | nil => simp
  | cons a l ih => simp [ih, RunTotals.add]

theorem foldl_add_skippedRows (l : List FileAcc) (tot : RunTotals) :
    (l.foldl RunTotals.add tot).skippedRows =
      tot.skippedRows ++ (l.map FileAcc.skippedRows).join := by
  induction l generalizing tot with
  | nil => simp
  | cons a l ih => simp [ih, RunTotals.add]

/-! ### Auxiliary lemmas for the per-row claims -/

theorem findBook_append_right (books₁ books₂ : List Book) (code : String)
    (h : findBook books₁ code = none) :
    findBook (books₁ ++ books₂) code = findBook books₂ code := by
  induction books₁ with
  | nil => rfl
  | cons b bs ih =>
    by_cases hb : b.bookCode == code
    · simp [findBook, hb] at h
    · simp only [List.cons_append, findBook, hb, if_false] at h ⊢
      exact ih h

theorem processRows_append_abort (d : Bool) (cat : Catalog) (acc : FileAcc)
    (good : List Row) (bad : Row) (rest : List Row)
    (hgood : ∀ r ∈ good, rowOk r = true) (hbad : rowOk bad = false) :
    processRows d cat acc (good ++ bad :: rest) =
      ((processRows d cat acc good).1, none) := by
  induction good generalizing cat acc with
  | nil =>
    simp only [List.nil_append, processRows]
    rw [(processRow_none_iff d cat acc bad).mpr hbad]
  | cons g gs ih =>
    simp only [List.cons_append, processRows]
    cases hp : processRow d cat acc g with
    | none =>
      exact absurd ((processRow_none_iff d cat acc g).mp hp)
        (by simp [hgood g (by simp)])
    | some p =>
      obtain ⟨cat', acc'⟩ := p
      exact ih cat' acc' (fun r hr => hgood r (by simp [hr]))

/-! ### The claims -/

/-- C1, counterexample.  On a catalog already holding F001 with the very same
four fields, APPLY-mode processing of the identical row reports the row as
updated (updated counter 1) and not as skipped (skip counter 0): the claimed
UNCHANGED-skip accounting does not happen in APPLY mode. -/
theorem C1_apply_unchanged_counterexample :
    (processRow false ⟨["Fiction"], [⟨"F001", "Dune", some "Herbert", "Fiction", 3⟩]⟩
        FileAcc.zero
        ⟨some "Fiction", some "F001", some "Dune", some "Herbert", some "3"⟩).map
      (fun p => (p.2.updated, p.2.skipped)) = some (1, 0) := by
  decide

/-- C1 (amended).  In APPLY mode, a row whose `book_code` already exists and
whose four comparable fields all equal the normalized input leaves the book
store unchanged, but it is counted as updated, not skipped: the updated
counter increments by 1 and `str(obj)` is appended to the updated list, while
the skip counter and skipped list are untouched. -/
theorem C1_unchanged_row_counted_updated (cat : Catalog) (acc : FileAcc)
    (c k t a n : String) (ht : ¬ strip t = "")
    (hfind : findBook cat.books (strip k) =
      some ⟨strip k, strip t, authorsOf a, strip c, copiesOf n⟩) :
    processRow false cat acc ⟨some c, some k, some t, some a, some n⟩ =
      some (⟨getOrCreateCategory cat.categories (strip c), cat.books⟩,
        { acc with
          updated := acc.updated + 1,
          updatedBooks := acc.updatedBooks ++ [strip k ++ " (" ++ strip t ++ ")"] }) := by
  have h : updateOrCreateBook cat.books (strip k) (strip t) (authorsOf a) (strip c)
      (copiesOf n) =
      (cat.books, ⟨strip k, strip t, authorsOf a, strip c, copiesOf n⟩, false) :=
    updateOrCreateBook_found_eq cat.books
      ⟨strip k, strip t, authorsOf a, strip c, copiesOf n⟩ hfind
  simp [processRow, beq_iff_eq, ht, h, bookStr]

/-- C1 (amended), witness at a concrete input. -/
theorem C1_unchanged_row_counted_updated_witness :
    processRow false ⟨["Fiction"], [⟨"F001", "Dune", some "Herbert", "Fiction", 3⟩]⟩
        FileAcc.zero
        ⟨some "Fiction", some "F001", some "Dune", some "Herbert", some "3"⟩ =
      some (⟨["Fiction"], [⟨"F001", "Dune", some "Herbert", "Fiction", 3⟩]⟩,
        ⟨0, 1, 0, ["F001 (Dune)"], []⟩) := by
  rw [C1_unchanged_row_counted_updated
    ⟨["Fiction"], [⟨"F001", "Dune", some "Herbert", "Fiction", 3⟩]⟩ FileAcc.zero
    "Fiction" "F001" "Dune" "Herbert" "3" (by decide) (by decide)]
  decide

/-- C2, counterexample.  A PREVIEW (dry-run) run over one row that references
a category absent from the catalog does mutate the catalog: the category is
created by `get_or_create` before the dry-run branch is reached. -/
theorem C2_preview_mutates_counterexample :
    (processFiles true Catalog.empty RunTotals.zero
        [InputFile.present
          [⟨some "Fiction", some "F001", some "Dune", some "Herbert", some "3"⟩]]).1 ≠
      Catalog.empty := by
  decide

/-- C2 (amended).  A PREVIEW run never creates or modifies any Book (the book
store is returned unchanged), though it may create Categories; and running
PREVIEW and then APPLY on the same file list yields exactly the same final
catalog state as running APPLY alone. -/
theorem C2_preview_books_unchanged_and_composes (cat : Catalog)
    (tot₁ tot₂ tot₃ : RunTotals) (fs : List InputFile) :
    (processFiles true cat tot₁ fs).1.books = cat.books ∧
    (processFiles false (processFiles true cat tot₁ fs).1 tot₂ fs).1 =
      (processFiles false cat tot₃ fs).1 := by
  refine ⟨processFiles_books_preview cat tot₁ fs, ?_⟩
  have hext : ∀ (x y : Catalog), x.categories = y.categories → x.books = y.books →
      x = y := by
    intro x y h1 h2
    cases x
    cases y
    simp_all
  apply hext
  · rw [processFiles_categories, processFiles_categories, processFiles_categories]
    exact catsFiles_idem cat.categories fs
  · rw [processFiles_books_apply, processFiles_books_apply, processFiles_books_preview]

/-- C3.  The command parses `NO. OF COPIES` with plain `int()`: the input
`-5` parses successfully, no clamping or defaulting occurs, and the value
passed to storage for `number_of_copies` is the negative integer `-5`, even
though the model declares the column as a `PositiveIntegerField`. -/
theorem C3_negative_copies_passed_to_store :
    (processRow false Catalog.empty FileAcc.zero
        ⟨some "Fiction", some "F001", some "Dune", some "Herbert", some "-5"⟩).map
      (fun p => p.1.books.map Book.numberOfCopies) = some [-5] ∧
    ¬ (0 : Int) ≤ -5 := by
  decide

/-- C5, counterexample.  Processing a row whose title is empty on an empty
catalog leaves the category store empty: the title check happens before the
category lookup/creation, so no orphan Category can be left behind by such a
row. -/
theorem C5_no_orphan_category_counterexample :
    (processRow false Catalog.empty FileAcc.zero
        ⟨some "Fiction", some "F001", some "", some "Herbert", some "3"⟩).map
      (fun p => p.1.categories) = some [] := by
  decide

/-- C5 (amended).  For every row whose title strips to empty, the row is
rejected before the category `get_or_create` call: the whole catalog,
categories included, is returned unchanged in both modes. -/
theorem C5_title_check_before_category (d : Bool) (cat : Catalog) (acc : FileAcc)
    (c k t a n : String) (ht : strip t = "") :
    (processRow d cat acc ⟨some c, some k, some t, some a, some n⟩).map Prod.fst =
      some cat := by
  simp [processRow, ht]

/-- C5 (amended), witness at a concrete input. -/
theorem C5_title_check_before_category_witness :
    (processRow false Catalog.empty FileAcc.zero
        ⟨some "Fiction", some "F001", some "   ", some "Herbert", some "3"⟩).map
      Prod.fst = some Catalog.empty :=
  C5_title_check_before_category false Catalog.empty FileAcc.zero
    "Fiction" "F001" "   " "Herbert" "3" (by decide)

/-- C6.  A row whose title is empty or whitespace-only is skipped in both
APPLY and PREVIEW mode: the catalog is unchanged (no Book created or
updated), the skip counter increments by 1, and the pair of stripped
category name and book code is appended to the skipped list. -/
theorem C6_empty_title_row_skipped_both_modes (d : Bool) (cat : Catalog)
    (acc : FileAcc) (c k t a n : String) (ht : strip t = "") :
    processRow d cat acc ⟨some c, some k, some t, some a, some n⟩ =
      some (cat, { acc with
        skipped := acc.skipped + 1,
        skippedRows := acc.skippedRows ++ [(strip c, strip k)] }) := by
  simp [processRow, ht]

/-- C6, witness at a concrete input with a whitespace-only title. -/
theorem C6_empty_title_row_skipped_both_modes_witness :
    processRow true ⟨["Sci"], []⟩ ⟨2, 3, 4, ["x"], [("a", "b")]⟩
        ⟨some " Fiction ", some " F001 ", some "  ", some "H", some "3"⟩ =
      some (⟨["Sci"], []⟩, ⟨2, 3, 5, ["x"], [("a", "b"), ("Fiction", "F001")]⟩) := by
  rw [C6_empty_title_row_skipped_both_modes true ⟨["Sci"], []⟩
    ⟨2, 3, 4, ["x"], [("a", "b")]⟩ " Fiction " " F001 " "  " "H" "3" (by decide)]
  decide

/-- C4.  In APPLY mode, a valid row whose stripped code is absent from the
catalog creates exactly one new Book (appended to the store) whose fields
equal the normalized row, incrementing the add counter by 1; and a valid row
whose stripped code is already present replaces all four fields of the
existing Book (the store keeps its length, and lookup by the code yields the
fully replaced normalized Book), incrementing the updated counter by 1. -/
theorem C4_add_then_update_by_code (cat : Catalog) (acc : FileAcc)
    (c k t a n : String) (ht : ¬ strip t = "") :
    (findBook cat.books (strip k) = none →
      processRow false cat acc ⟨some c, some k, some t, some a, some n⟩ =
        some (⟨getOrCreateCategory cat.categories (strip c),
          cat.books ++ [⟨strip k, strip t, authorsOf a, strip c, copiesOf n⟩]⟩,
          { acc with added := acc.added + 1 })) ∧
    (∀ b, findBook cat.books (strip k) = some b →
      processRow false cat acc ⟨some c, some k, some t, some a, some n⟩ =
        some (⟨getOrCreateCategory cat.categories (strip c),
          (updateOrCreateBook cat.books (strip k) (strip t) (authorsOf a) (strip c)
            (copiesOf n)).1⟩,
          { acc with
            updated := acc.updated + 1,
            updatedBooks := acc.updatedBooks ++
              [strip k ++ " (" ++ strip t ++ ")"] }) ∧
      (updateOrCreateBook cat.books (strip k) (strip t) (authorsOf a) (strip c)
        (copiesOf n)).1.length = cat.books.length ∧
      findBook (updateOrCreateBook cat.books (strip k) (strip t) (authorsOf a)
        (strip c) (copiesOf n)).1 (strip k) =
        some ⟨strip k, strip t, authorsOf a, strip c, copiesOf n⟩) := by
  constructor
  · intro hnone
    have h := updateOrCreateBook_not_found cat.books (strip k) (strip t)
      (authorsOf a) (strip c) (copiesOf n) hnone
    simp [processRow, ht, h]
  · intro b hb
    have h := updateOrCreateBook_found cat.books (strip k) (strip t)
      (authorsOf a) (strip c) (copiesOf n) b hb
    have hobj := updateOrCreateBook_obj cat.books (strip k) (strip t)
      (authorsOf a) (strip c) (copiesOf n)
    refine ⟨?_, h.2.1, h.2.2⟩
    simp [processRow, ht, h.1, hobj, bookStr]

/-- C4, witness: adding F001 to an empty catalog, then re-importing F001 with
a different copy count updates the one existing Book in place. -/
theorem C4_add_then_update_by_code_witness :
    processRow false Catalog.empty FileAcc.zero
        ⟨some "Fiction", some "F001", some "Dune", some "Herbert", some "3"⟩ =
      some (⟨["Fiction"], [⟨"F001", "Dune", some "Herbert", "Fiction", 3⟩]⟩,
        ⟨1, 0, 0, [], []⟩) ∧
    processRow false ⟨["Fiction"], [⟨"F001", "Dune", some "Herbert", "Fiction", 3⟩]⟩
        FileAcc.zero
        ⟨some "Fiction", some "F001", some "Dune", some "Herbert", some "5"⟩ =
      some (⟨["Fiction"], [⟨"F001", "Dune", some "Herbert", "Fiction", 5⟩]⟩,
        ⟨0, 1, 0, ["F001 (Dune)"], []⟩) := by
  constructor
  · rw [(C4_add_then_update_by_code Catalog.empty FileAcc.zero
      "Fiction" "F001" "Dune" "Herbert" "3" (by decide)).1 (by decide)]
    decide
  · rw [((C4_add_then_update_by_code
      ⟨["Fiction"], [⟨"F001", "Dune", some "Herbert", "Fiction", 3⟩]⟩ FileAcc.zero
      "Fiction" "F001" "Dune" "Herbert" "5" (by decide)).2
      ⟨"F001", "Dune", some "Herbert", "Fiction", 3⟩ (by decide)).1]
    decide

/-- C7.  Error containment: a file whose rows all have the five required
columns is never aborted (row-level invalidity such as an empty title is not
fatal); a missing input file is skipped and the run continues with the
remaining files; and a file aborted by a missing column only moves the run to
the remaining files from the post-abort state — the run itself is never
aborted. -/
theorem C7_errors_abort_only_their_file (d : Bool) (cat : Catalog) (acc : FileAcc)
    (tot : RunTotals) (rows badRows : List Row) (fs : List InputFile)
    (h : ∀ r ∈ rows, rowOk r = true) :
    (processRows d cat acc rows).2.isSome = true ∧
    processFiles d cat tot (InputFile.missing :: fs) = processFiles d cat tot fs ∧
    processFiles d cat tot (InputFile.present badRows :: fs) =
      processFiles d (processRows d cat FileAcc.zero badRows).1
        (match (processRows d cat FileAcc.zero badRows).2 with
          | none => tot
          | some acc' => tot.add acc') fs := by
  refine ⟨processRows_isSome d cat acc rows h, rfl, ?_⟩
  cases hr : processRows d cat FileAcc.zero badRows with
  | mk cat' oacc =>
    cases oacc <;> simp [processFiles, hr]

/-- C7, witness: a file with an invalid (empty-title) row completes; a
missing file and a missing-column file leave the rest of the run to
continue. -/
theorem C7_errors_abort_only_their_file_witness :
    (processRows false Catalog.empty FileAcc.zero
        [⟨some "Fiction", some "F001", some "", some "H", some "3"⟩]).2.isSome =
      true ∧
    processFiles false Catalog.empty RunTotals.zero (InputFile.missing :: []) =
      processFiles false Catalog.empty RunTotals.zero [] ∧
    processFiles false Catalog.empty RunTotals.zero
        (InputFile.present [⟨some "Sci", none, some "T", some "A", some "1"⟩] :: []) =
      processFiles false
        (processRows false Catalog.empty FileAcc.zero
          [⟨some "Sci", none, some "T", some "A", some "1"⟩]).1
        (match (processRows false Catalog.empty FileAcc.zero
            [⟨some "Sci", none, some "T", some "A", some "1"⟩]).2 with
          | none => RunTotals.zero
          | some acc' => RunTotals.zero.add acc') [] :=
  C7_errors_abort_only_their_file false Catalog.empty FileAcc.zero RunTotals.zero
    [⟨some "Fiction", some "F001", some "", some "H", some "3"⟩]
    [⟨some "Sci", none, some "T", some "A", some "1"⟩] [] (by decide)

/-- C8.  The final run totals are exactly the componentwise sums of the
per-file counts over the files that completed, and the aggregate updated and
skipped lists are the ordered concatenation of the per-file lists, without
deduplication. -/
theorem C8_totals_sum_of_file_results (d : Bool) (cat : Catalog)
    (fs : List InputFile) :
    (processFiles d cat RunTotals.zero fs).2.added =
        ((runResults d cat fs).map FileAcc.added).sum ∧
    (processFiles d cat RunTotals.zero fs).2.updated =
        ((runResults d cat fs).map FileAcc.updated).sum ∧
    (processFiles d cat RunTotals.zero fs).2.skipped =
        ((runResults d cat fs).map FileAcc.skipped).sum ∧
    (processFiles d cat RunTotals.zero fs).2.updatedBooks =
        ((runResults d cat fs).map FileAcc.updatedBooks).join ∧
    (processFiles d cat RunTotals.zero fs).2.skippedRows =
        ((runResults d cat fs).map FileAcc.skippedRows).join := by
  refine ⟨?_, ?_, ?_, ?_, ?_⟩ <;> rw [processFiles_snd] <;>
    simp [foldl_add_added, foldl_add_updated, foldl_add_skipped,
      foldl_add_updatedBooks, foldl_add_skippedRows, RunTotals.zero]

/-- C9.  A valid row whose `NO. OF COPIES` value fails integer parsing is not
failed: in APPLY mode the skip counter is untouched and the Book stored under
the stripped code carries `number_of_copies = 1`. -/
theorem C9_unparseable_copies_default_one (cat : Catalog) (acc : FileAcc)
    (c k t a n : String) (ht : ¬ strip t = "") (hn : pyInt (strip n) = none) :
    (processRow false cat acc ⟨some c, some k, some t, some a, some n⟩).map
      (fun p => (findBook p.1.books (strip k), p.2.skipped)) =
      some (some ⟨strip k, strip t, authorsOf a, strip c, 1⟩, acc.skipped) := by
  have hcop : copiesOf n = 1 := by simp [copiesOf, hn]
  cases hf : findBook cat.books (strip k) with
  | none =>
    have h := updateOrCreateBook_not_found cat.books (strip k) (strip t)
      (authorsOf a) (strip c) (copiesOf n) hf
    have hrow : processRow false cat acc ⟨some c, some k, some t, some a, some n⟩ =
        some (⟨getOrCreateCategory cat.categories (strip c),
          cat.books ++ [⟨strip k, strip t, authorsOf a, strip c, copiesOf n⟩]⟩,
          { acc with added := acc.added + 1 }) := by
      simp [processRow, ht, h]
    rw [hrow]
    simp only [Option.map_some']
    rw [findBook_append_right cat.books _ (strip k) hf]
    simp [findBook, hcop]
  | some b =>
    have h := updateOrCreateBook_found cat.books (strip k) (strip t)
      (authorsOf a) (strip c) (copiesOf n) b hf
    have hobj := updateOrCreateBook_obj cat.books (strip k) (strip t)
      (authorsOf a) (strip c) (copiesOf n)
    have hrow : processRow false cat acc ⟨some c, some k, some t, some a, some n⟩ =
        some (⟨getOrCreateCategory cat.categories (strip c),
          (updateOrCreateBook cat.books (strip k) (strip t) (authorsOf a) (strip c)
            (copiesOf n)).1⟩,
          { acc with
            updated := acc.updated + 1,
            updatedBooks := acc.updatedBooks ++
              [strip k ++ " (" ++ strip t ++ ")"] }) := by
      simp [processRow, ht, h.1, hobj, bookStr]
    rw [hrow]
    simp only [Option.map_some']
    rw [h.2.2]
    simp [hcop]

/-- C9, witness at the concrete unparseable value `abc`. -/
theorem C9_unparseable_copies_default_one_witness :
    (processRow false Catalog.empty FileAcc.zero
        ⟨some "Fiction", some "F001", some "Dune", some "Herbert", some "abc"⟩).map
      (fun p => (findBook p.1.books (strip "F001"), p.2.skipped)) =
      some (some ⟨strip "F001", strip "Dune", authorsOf "Herbert", strip "Fiction", 1⟩,
        FileAcc.zero.skipped) :=
  C9_unparseable_copies_default_one Catalog.empty FileAcc.zero
    "Fiction" "F001" "Dune" "Herbert" "abc" (by decide) (by decide)

/-- C10.  When a file aborts on a missing-column row in APPLY mode, the
catalog keeps every mutation already applied for the earlier rows of that
file, but the counters and lists of the file are lost: the run totals
continue over the remaining files unchanged. -/
theorem C10_aborted_file_keeps_mutations_drops_counts (cat : Catalog)
    (tot : RunTotals) (good : List Row) (bad : Row) (rest : List Row)
    (fs : List InputFile)
    (hgood : ∀ r ∈ good, rowOk r = true) (hbad : rowOk bad = false) :
    processRows false cat FileAcc.zero (good ++ bad :: rest) =
      ((processRows false cat FileAcc.zero good).1, none) ∧
    processFiles false cat tot (InputFile.present (good ++ bad :: rest) :: fs) =
      processFiles false (processRows false cat FileAcc.zero good).1 tot fs := by
  have h := processRows_append_abort false cat FileAcc.zero good bad rest hgood hbad
  refine ⟨h, ?_⟩
  simp [processFiles, h]

/-- C10, witness: a good row followed by a row missing its copies column; the
book added by the good row stays, the totals stay at zero. -/
theorem C10_aborted_file_keeps_mutations_drops_counts_witness :
    processRows false Catalog.empty FileAcc.zero
        ([⟨some "Fiction", some "F001", some "Dune", some "Herbert", some "3"⟩] ++
          ⟨some "Sci", some "S1", some "Solaris", some "Lem", none⟩ :: []) =
      ((processRows false Catalog.empty FileAcc.zero
        [⟨some "Fiction", some "F001", some "Dune", some "Herbert", some "3"⟩]).1,
        none) ∧
    processFiles false Catalog.empty RunTotals.zero
        (InputFile.present
          ([⟨some "Fiction", some "F001", some "Dune", some "Herbert", some "3"⟩] ++
            ⟨some "Sci", some "S1", some "Solaris", some "Lem", none⟩ :: []) :: []) =
      processFiles false
        (processRows false Catalog.empty FileAcc.zero
          [⟨some "Fiction", some "F001", some "Dune", some "Herbert", some "3"⟩]).1
        RunTotals.zero [] :=
  C10_aborted_file_keeps_mutations_drops_counts Catalog.empty RunTotals.zero
    [⟨some "Fiction", some "F001", some "Dune", some "Herbert", some "3"⟩]
    ⟨some "Sci", some "S1", some "Solaris", some "Lem", none⟩ [] []
    (by decide) (by decide)

end LibraryImport
